import Mathlib

/-!
Shallow embedding of the Scorecard application (src/types.ts and the App
component in src/README.md): data model, the useState initializers that load
persisted fields, the derived-state computations (totalScores, leaderId,
sortedPlayers) and the mutation handlers.  JavaScript string-keyed objects are
modelled as association lists in insertion order; JavaScript numbers are
modelled as Int, with Option Int where NaN can arise.
-/

namespace Scorecard

/-- Player record from src/types.ts. -/
structure Player where
  id : String
  name : String
deriving DecidableEq

/-- RoundScores from src/types.ts: a JS object mapping player ids to scores,
modelled as an association list in insertion order.  JS objects cannot hold a
key twice; lists built by the operations below keep keys unique. -/
abbrev RoundScores := List (String × Int)

/-- The 'high' / 'low' winCondition union type. -/
inductive WinCondition
| high
| low
deriving DecidableEq

/-- SortOption union type: 'default' | 'scoreDesc' | 'scoreAsc' | 'nameAsc'. -/
inductive SortOption
| default
| scoreDesc
| scoreAsc
| nameAsc
deriving DecidableEq

/-- The five persisted state fields of the App component.  activeRoundIndex is
a JS number holding an integer in every reachable state; it is modelled as Int
so that the guards of the handlers can be stated faithfully. -/
structure GameState where
  players : List Player
  rounds : List RoundScores
  activeRoundIndex : Int
  winCondition : WinCondition
  sortBy : SortOption
deriving DecidableEq

/-- Whitespace recognised by the JS trimming and parseInt models (the common
whitespace characters; the exotic Unicode space classes never occur in the
inputs considered here). -/
def isJsWs (c : Char) : Bool :=
  c == ' ' || c == '\t' || c == '\n' || c == '\r'

/-- Model of String.prototype.trim: drop whitespace from both ends. -/
def jsTrim (s : String) : String :=
  ⟨((s.data.dropWhile isJsWs).reverse.dropWhile isJsWs).reverse⟩

/-- Decimal value of a digit list (accumulator form, as parseInt scans). -/
def digitsToNat : List Char → Nat → Nat
  | [], acc => acc
  | c :: cs, acc => digitsToNat cs (acc * 10 + (c.toNat - 48))

/-- Value of the maximal leading digit run; none when there is no digit. -/
def leadingDigits (cs : List Char) : Option Nat :=
  let ds := cs.takeWhile Char.isDigit
  if ds.isEmpty then none else some (digitsToNat ds 0)

/-- Model of JS parseInt(str, 10): skip leading whitespace, read an optional
sign, then the maximal digit run; the result is NaN (here: none) when no digit
follows.  Trailing garbage after the digits is ignored, as in JS. -/
def parseIntJS (str : String) : Option Int :=
  match str.data.dropWhile isJsWs with
  | '-' :: rest => (leadingDigits rest).map (fun n => -(n : Int))
  | '+' :: rest => (leadingDigits rest).map (fun n => (n : Int))
  | other => (leadingDigits other).map (fun n => (n : Int))

/-- Value stored under a key in a round object (JS round[pid]). -/
def lookupScore : RoundScores → String → Option Int
  | [], _ => none
  | e :: r, pid => if e.1 == pid then some e.2 else lookupScore r pid

/-- The object spread update ({...round, [pid]: v}): an existing key keeps its
position and gets the new value, a new key is appended. -/
def setEntry (r : RoundScores) (pid : String) (v : Int) : RoundScores :=
  if r.any (fun e => e.1 == pid) then
    r.map (fun e => if e.1 == pid then (pid, v) else e)
  else r ++ [(pid, v)]

/-- totalScores (the useMemo in the App component): start every current
player's total at 0, then walk every round's entries and add each score whose
key is a current player (totals[playerId] !== undefined); other keys are
skipped.  The totals object is modelled as a function to Option Int, none
meaning the key is absent. -/
def initTotals (players : List Player) : String → Option Int :=
  fun pid => if players.any (fun p => p.id == pid) then some 0 else none

/-- One Object.entries step of the totalScores loop. -/
def addEntry (t : String → Option Int) (e : String × Int) : String → Option Int :=
  match t e.1 with
  | none => t
  | some v => fun pid => if pid = e.1 then some (v + e.2) else t pid

def totalScores (s : GameState) : String → Option Int :=
  s.rounds.foldl (fun t r => r.foldl addEntry t) (initTotals s.players)

/-- Comparison step of the leaderId loop: score > bestScore under 'high',
score < bestScore under 'low'; bestScore = none models the ±Infinity start,
which every finite score beats. -/
def beatsVal (wc : WinCondition) (score : Int) (best : Option Int) : Bool :=
  match best with
  | none => true
  | some b =>
    match wc with
    | WinCondition.high => decide (b < score)
    | WinCondition.low => decide (score < b)

/-- The for-loop of leaderId: track bestScore and leader.  A player whose id
is absent from totals never updates either (in JS the comparison with
undefined is false); for reachable states every player has an entry. -/
def scanGo (wc : WinCondition) (tot : String → Option Int) :
    List Player → Option Int → Option String → Option Int × Option String
  | [], best, lead => (best, lead)
  | p :: ps, best, lead =>
    match tot p.id with
    | none => scanGo wc tot ps best lead
    | some score =>
      if beatsVal wc score best then scanGo wc tot ps (some score) (some p.id)
      else scanGo wc tot ps best lead

/-- leaderId (the useMemo in the App component): null when there are no
players or every player's total is exactly 0, otherwise the first player whose
total strictly beats every earlier best. -/
def leaderId (s : GameState) : Option String :=
  if s.players.isEmpty then none
  else if s.players.all (fun p => totalScores s p.id == some 0) then none
  else (scanGo s.winCondition (totalScores s) s.players none none).2

/-- Total used by the sort comparators; for every current player the entry
exists, so the default never shows through for the players being sorted. -/
def totOf (s : GameState) (pid : String) : Int :=
  (totalScores s pid).getD 0

/-- Modelled from the spec: the locale-aware lexicographic comparison behind
name.localeCompare(other).  localeCompare is a browser API outside this
repository; it is modelled as code-point lexicographic order, which agrees
with it on plain ASCII names in the default locale. -/
def lexLe : List Char → List Char → Bool
  | [], _ => true
  | _ :: _, [] => false
  | a :: as, b :: bs =>
    if a.toNat < b.toNat then true
    else if b.toNat < a.toNat then false
    else lexLe as bs

/-- sortedPlayers (the useMemo in the App component): copy of players sorted
per the comparator of the selected option.  JS Array.prototype.sort leaves the
relative order of comparator ties unspecified; a stable insertion sort is one
conforming refinement of it. -/
def sortedPlayers (s : GameState) : List Player :=
  match s.sortBy with
  | SortOption.scoreDesc =>
    s.players.insertionSort (fun a b => totOf s b.id ≤ totOf s a.id)
  | SortOption.scoreAsc =>
    s.players.insertionSort (fun a b => totOf s a.id ≤ totOf s b.id)
  | SortOption.nameAsc =>
    s.players.insertionSort (fun a b => lexLe a.name.data b.name.data = true)
  | SortOption.default => s.players

/-- handleAddPlayer: no-op when the trimmed name is empty, otherwise append a
player whose id is Date.now().toString(); the clock reading at the call is
passed as the argument now. -/
def handleAddPlayer (s : GameState) (newPlayerName : String) (now : Nat) : GameState :=
  if jsTrim newPlayerName = "" then s
  else { s with players := s.players ++ [{ id := toString now, name := jsTrim newPlayerName }] }

/-- The newRounds[activeRoundIndex] = {...newRounds[activeRoundIndex],
[playerId]: v} update of handleScoreChange.  An index outside
[0, rounds.length), unreachable while the activeRoundIndex invariant holds, is
not modelled (the list is left unchanged there). -/
def setRoundAt (rounds : List RoundScores) (i : Int) (pid : String) (v : Int) :
    List RoundScores :=
  if 0 ≤ i ∧ i < (rounds.length : Int) then
    rounds.set i.toNat (setEntry (rounds.getD i.toNat []) pid v)
  else rounds

/-- handleScoreChange: the empty string becomes 0, anything else goes through
parseInt; NaN is rejected before any state change, otherwise the value is
written into the active round. -/
def handleScoreChange (s : GameState) (playerId : String) (value : String) : GameState :=
  match (if value = "" then some 0 else parseIntJS value) with
  | none => s
  | some v => { s with rounds := setRoundAt s.rounds s.activeRoundIndex playerId v }

/-- handleNextRound: append a fresh empty round when at the last index, then
increment the active index. -/
def handleNextRound (s : GameState) : GameState :=
  { s with
    rounds := if s.activeRoundIndex = (s.rounds.length : Int) - 1
              then s.rounds ++ [[]] else s.rounds,
    activeRoundIndex := s.activeRoundIndex + 1 }

/-- handlePrevRound: decrement the active index unless it is already 0. -/
def handlePrevRound (s : GameState) : GameState :=
  if 0 < s.activeRoundIndex then
    { s with activeRoundIndex := s.activeRoundIndex - 1 }
  else s

/-- handleDeletePlayer: keep exactly the players whose id differs; rounds are
untouched. -/
def handleDeletePlayer (s : GameState) (id : String) : GameState :=
  { s with players := s.players.filter (fun p => p.id != id) }

/-- resetGame, the confirmed branch (the confirm dialog is an out-of-scope UI
gate): one fresh empty round, index 0, players kept. -/
def resetGame (s : GameState) : GameState :=
  { s with rounds := [[]], activeRoundIndex := 0 }

/-- toggleWinCondition. -/
def toggleWinCondition (s : GameState) : GameState :=
  { s with winCondition :=
      match s.winCondition with
      | WinCondition.high => WinCondition.low
      | WinCondition.low => WinCondition.high }

/-- The activeRoundIndex useState initializer: saved ? parseInt(saved, 10) : 0.
The argument is the stored string (none when the key is missing); a result of
none models NaN.  parseInt never throws, so the surrounding try/catch plays no
role on non-numeric input. -/
def loadActiveRoundIndex (saved : Option String) : Option Int :=
  match saved with
  | none => some 0
  | some str => if str = "" then some 0 else parseIntJS str

/-- The winCondition useState initializer: any value other than 'high' or
'low' falls back to 'high'. -/
def loadWinCondition (saved : Option String) : WinCondition :=
  match saved with
  | some "high" => WinCondition.high
  | some "low" => WinCondition.low
  | _ => WinCondition.high

/-- The sortBy useState initializer: any value outside the four options falls
back to 'default' (the empty string is falsy and also falls back). -/
def loadSortBy (saved : Option String) : SortOption :=
  match saved with
  | some "default" => SortOption.default
  | some "scoreDesc" => SortOption.scoreDesc
  | some "scoreAsc" => SortOption.scoreAsc
  | some "nameAsc" => SortOption.nameAsc
  | _ => SortOption.default

/-- Sum of the values a round holds under a given key (a JS object holds a key
at most once, so on reachable rounds this is that one value or 0). -/
def sumEntries (pid : String) : RoundScores → Int
  | [] => 0
  | e :: r => (if e.1 = pid then e.2 else 0) + sumEntries pid r

/-- Sum of a key's entries across a list of rounds. -/
def roundsSum (pid : String) : List RoundScores → Int
  | [] => 0
  | r :: rs => sumEntries pid r + roundsSum pid rs

/-- Strict "is better" order of the active win condition: wcLt wc x y says y
strictly beats x (greater under 'high', smaller under 'low'). -/
def wcLt (wc : WinCondition) (x y : Int) : Prop :=
  match wc with
  | WinCondition.high => x < y
  | WinCondition.low => y < x

/-- The total a current player carries (the value totalScores stores under
that player's id). -/
def playerTotal (s : GameState) (p : Player) : Int :=
  roundsSum p.id s.rounds

/-- Comparison state for claim C1, following the spec's words: the state in
which the player's entry has been removed from the active round (key absent,
"not yet scored"), which is what the spec says setScore with empty input
leaves behind. -/
def eraseActiveEntry (s : GameState) (pid : String) : GameState :=
  if 0 ≤ s.activeRoundIndex ∧ s.activeRoundIndex < (s.rounds.length : Int) then
    let r := (s.rounds.getD s.activeRoundIndex.toNat []).filter (fun e => e.1 != pid)
    { s with rounds := s.rounds.set s.activeRoundIndex.toNat r }
  else s

/-- Example state: players A, B, C with totals 10, 10, 5 and HighWins. -/
def exA : GameState :=
  { players := [⟨"a1", "A"⟩, ⟨"b1", "B"⟩, ⟨"c1", "C"⟩],
    rounds := [[("a1", 10), ("b1", 10), ("c1", 5)]],
    activeRoundIndex := 0,
    winCondition := WinCondition.high,
    sortBy := SortOption.default }

/-- Example state: one player p1 with a stored score 7 in the active round. -/
def exB : GameState :=
  { players := [⟨"p1", "P"⟩],
    rounds := [[("p1", 7)]],
    activeRoundIndex := 0,
    winCondition := WinCondition.high,
    sortBy := SortOption.default }

/-- Example state: Alice, Bob, Carl with totals 5, 9, 9 under scoreDesc. -/
def exSortDesc : GameState :=
  { players := [⟨"a", "Alice"⟩, ⟨"b", "Bob"⟩, ⟨"c", "Carl"⟩],
    rounds := [[("a", 5), ("b", 9), ("c", 9)]],
    activeRoundIndex := 0,
    winCondition := WinCondition.high,
    sortBy := SortOption.scoreDesc }

/-- The same players and totals under nameAsc. -/
def exSortName : GameState :=
  { exSortDesc with sortBy := SortOption.nameAsc }

/-- Empty starting state (the documented defaults of the five fields). -/
def exEmpty : GameState :=
  { players := [],
    rounds := [[]],
    activeRoundIndex := 0,
    winCondition := WinCondition.high,
    sortBy := SortOption.default }

lemma addEntry_apply (t : String → Option Int) (e : String × Int) (pid : String) :
    addEntry t e pid = if e.1 = pid then (t pid).map (fun v => v + e.2) else t pid := by
  by_cases h : e.1 = pid
  · subst h
    cases ht : t e.1 <;> simp [addEntry, ht]
  · have h' : pid ≠ e.1 := fun hh => h hh.symm
    cases ht : t e.1 <;> simp [addEntry, ht, h, h']

lemma foldl_addEntry_apply (r : RoundScores) :
    ∀ (t : String → Option Int) (pid : String),
    (r.foldl addEntry t) pid = (t pid).map (fun v => v + sumEntries pid r) := by
  induction r with
  | nil =>
    intro t pid
    cases ht : t pid <;> simp [sumEntries, ht]
  | cons e r ih =>
    intro t pid
    rw [List.foldl_cons, ih, addEntry_apply]
    by_cases h : e.1 = pid
    · cases ht : t pid <;> simp [sumEntries, h, ht, add_assoc]
    · cases ht : t pid <;> simp [sumEntries, h, ht]

lemma totals_foldl_apply (rs : List RoundScores) :
    ∀ (t : String → Option Int) (pid : String),
    (rs.foldl (fun t r => r.foldl addEntry t) t) pid
      = (t pid).map (fun v => v + roundsSum pid rs) := by
  induction rs with
  | nil =>
    intro t pid
    cases ht : t pid <;> simp [roundsSum, ht]
  | cons r rs ih =>
    intro t pid
    rw [List.foldl_cons, ih, foldl_addEntry_apply]
    cases ht : t pid <;> simp [roundsSum, ht, add_assoc]

/-- Pointwise description of totalScores: a current player's id maps to the
sum of its entries across all rounds, any other key is absent. -/
lemma totalScores_eq (s : GameState) (pid : String) :
    totalScores s pid =
      if s.players.any (fun p => p.id == pid) then some (roundsSum pid s.rounds)
      else none := by
  unfold totalScores
  rw [totals_foldl_apply]
  unfold initTotals
  by_cases h : s.players.any (fun p => p.id == pid) = true
  · simp [h]
  · simp [h]

lemma any_id_eq_mem (players : List Player) (pid : String) :
    players.any (fun p => p.id == pid) = true ↔ pid ∈ players.map Player.id := by
  simp [List.any_eq_true]

lemma sumEntries_eq_zero_of_not_mem (pid : String) (r : RoundScores)
    (h : ∀ e ∈ r, e.1 ≠ pid) : sumEntries pid r = 0 := by
  induction r with
  | nil => rfl
  | cons e r ih =>
    have he := h e (List.mem_cons_self e r)
    simp [sumEntries, he, ih (fun x hx => h x (List.mem_cons_of_mem e hx))]

lemma sumEntries_eq_lookup (pid : String) (r : RoundScores)
    (h : (r.map Prod.fst).Nodup) :
    sumEntries pid r = (lookupScore r pid).getD 0 := by
  induction r with
  | nil => rfl
  | cons e r ih =>
    rw [List.map_cons, List.nodup_cons] at h
    simp only [sumEntries, lookupScore]
    by_cases hk : e.1 = pid
    · have hz : sumEntries pid r = 0 := by
        apply sumEntries_eq_zero_of_not_mem
        intro x hx hxe
        have hm : x.1 ∈ List.map Prod.fst r := List.mem_map_of_mem Prod.fst hx
        rw [hxe, ← hk] at hm
        exact h.1 hm
      rw [if_pos hk, if_pos (by simp [hk] : (e.1 == pid) = true), hz]
      simp
    · rw [if_neg hk, if_neg (by simp [hk] : ¬ (e.1 == pid) = true), ih h.2]
      simp

lemma sumEntries_append (pid : String) (r1 r2 : RoundScores) :
    sumEntries pid (r1 ++ r2) = sumEntries pid r1 + sumEntries pid r2 := by
  induction r1 with
  | nil => simp [sumEntries]
  | cons e r ih => simp [sumEntries, ih, add_assoc]

lemma roundsSum_eq_lookup_sum (pid : String) (rs : List RoundScores)
    (h : ∀ r ∈ rs, (r.map Prod.fst).Nodup) :
    roundsSum pid rs = (rs.map (fun r => (lookupScore r pid).getD 0)).sum := by
  induction rs with
  | nil => rfl
  | cons r rs ih =>
    simp [roundsSum, sumEntries_eq_lookup pid r (h r (List.mem_cons_self r rs)),
      ih (fun x hx => h x (List.mem_cons_of_mem r hx))]

lemma filter_any_eq_of_ne (pid q : String) (hq : q ≠ pid) (l : List Player) :
    (l.filter (fun p => p.id != pid)).any (fun p => p.id == q)
      = l.any (fun p => p.id == q) := by
  rw [Bool.eq_iff_iff]
  simp only [List.any_eq_true, List.mem_filter, bne_iff_ne, ne_eq, beq_iff_eq]
  constructor
  · rintro ⟨x, ⟨hx, _⟩, hxq⟩
    exact ⟨x, hx, hxq⟩
  · rintro ⟨x, hx, hxq⟩
    refine ⟨x, ⟨hx, ?_⟩, hxq⟩
    rw [hxq]
    exact hq

lemma filter_any_self_eq_false (pid : String) (l : List Player) :
    (l.filter (fun p => p.id != pid)).any (fun p => p.id == pid) = false := by
  rw [Bool.eq_false_iff]
  intro hc
  rw [List.any_eq_true] at hc
  obtain ⟨x, hx, hxe⟩ := hc
  rw [List.mem_filter] at hx
  rw [beq_iff_eq] at hxe
  have := hx.2
  rw [bne_iff_ne] at this
  exact this hxe

/-- C5: totalScores has exactly one entry per current player (a key is present
iff it is a current player's id), each equal to the sum over all rounds of
that player's entries with a missing entry contributing 0; after removing a
player, that id's key is gone from the totals and every other player's total
is unchanged. -/
theorem c5_totals (s : GameState) (pid : String) :
    ((totalScores s pid).isSome ↔ pid ∈ s.players.map Player.id)
    ∧ ((∀ r ∈ s.rounds, (r.map Prod.fst).Nodup) → pid ∈ s.players.map Player.id →
        totalScores s pid
          = some ((s.rounds.map (fun r => (lookupScore r pid).getD 0)).sum))
    ∧ totalScores (handleDeletePlayer s pid) pid = none
    ∧ (∀ q, q ≠ pid →
        totalScores (handleDeletePlayer s pid) q = totalScores s q) := by
  refine ⟨?_, ?_, ?_, ?_⟩
  · rw [totalScores_eq]
    by_cases h : s.players.any (fun p => p.id == pid) = true
    · simp [h, (any_id_eq_mem s.players pid).mp h]
    · have hm : pid ∉ s.players.map Player.id :=
        fun hmem => h ((any_id_eq_mem _ _).mpr hmem)
      simp [h, hm]
  · intro hnd hmem
    rw [totalScores_eq, if_pos ((any_id_eq_mem _ _).mpr hmem),
      roundsSum_eq_lookup_sum pid _ hnd]
  · rw [totalScores_eq]
    have h := filter_any_self_eq_false pid s.players
    simp only [handleDeletePlayer] at *
    simp [h]
  · intro q hq
    rw [totalScores_eq, totalScores_eq]
    have h := filter_any_eq_of_ne pid q hq s.players
    simp only [handleDeletePlayer]
    simp [h]

/-- C5 witness at a concrete state. -/
theorem c5_totals_witness :
    totalScores exB "p1"
      = some ((exB.rounds.map (fun r => (lookupScore r "p1").getD 0)).sum) :=
  (c5_totals exB "p1").2.1 (by decide) (by decide)

/-- C9: resetGame replaces rounds with a single empty round and zeroes the
active index while players, winCondition and sortBy are untouched;
handleDeletePlayer is idempotent, only filters the players list by id, and
leaves rounds and the other fields unchanged. -/
theorem c9_reset_and_remove (s : GameState) (id : String) :
    (resetGame s).rounds = [[]]
    ∧ (resetGame s).activeRoundIndex = 0
    ∧ (resetGame s).players = s.players
    ∧ (resetGame s).winCondition = s.winCondition
    ∧ (resetGame s).sortBy = s.sortBy
    ∧ handleDeletePlayer (handleDeletePlayer s id) id = handleDeletePlayer s id
    ∧ (handleDeletePlayer s id).players = s.players.filter (fun p => p.id != id)
    ∧ (handleDeletePlayer s id).rounds = s.rounds
    ∧ (handleDeletePlayer s id).activeRoundIndex = s.activeRoundIndex
    ∧ (handleDeletePlayer s id).winCondition = s.winCondition
    ∧ (handleDeletePlayer s id).sortBy = s.sortBy := by
  refine ⟨rfl, rfl, rfl, rfl, rfl, ?_, rfl, rfl, rfl, rfl, rfl⟩
  simp [handleDeletePlayer, List.filter_filter]

/-- C7: a rawValue that neither is empty nor parses as an integer is rejected
and the whole state, prior score entry included, is unchanged (the embedding
is a total function, so no exception arises). -/
theorem c7_reject_nonnumeric (s : GameState) (pid value : String)
    (h1 : value ≠ "") (h2 : parseIntJS value = none) :
    handleScoreChange s pid value = s := by
  unfold handleScoreChange
  rw [if_neg h1, h2]

/-- C7 witness at a concrete state and input. -/
theorem c7_reject_witness : handleScoreChange exB "p1" "abc" = exB :=
  c7_reject_nonnumeric exB "p1" "abc" (by decide) (by decide)

/-- C6: round navigation preserves 0 ≤ activeRoundIndex ≤ rounds.length - 1
and rounds nonempty; handleNextRound appends an empty round exactly at the
last index and always increments, handlePrevRound at index 0 is the
identity. -/
theorem c6_round_navigation (s : GameState)
    (h1 : 0 ≤ s.activeRoundIndex)
    (h2 : s.activeRoundIndex ≤ (s.rounds.length : Int) - 1)
    (h3 : 1 ≤ s.rounds.length) :
    (0 ≤ (handleNextRound s).activeRoundIndex
      ∧ (handleNextRound s).activeRoundIndex
          ≤ ((handleNextRound s).rounds.length : Int) - 1
      ∧ 1 ≤ (handleNextRound s).rounds.length)
    ∧ (s.activeRoundIndex = (s.rounds.length : Int) - 1 →
        (handleNextRound s).rounds = s.rounds ++ [[]]
        ∧ (handleNextRound s).activeRoundIndex = s.activeRoundIndex + 1)
    ∧ (s.activeRoundIndex < (s.rounds.length : Int) - 1 →
        (handleNextRound s).rounds = s.rounds
        ∧ (handleNextRound s).activeRoundIndex = s.activeRoundIndex + 1)
    ∧ (0 ≤ (handlePrevRound s).activeRoundIndex
      ∧ (handlePrevRound s).activeRoundIndex
          ≤ ((handlePrevRound s).rounds.length : Int) - 1
      ∧ 1 ≤ (handlePrevRound s).rounds.length)
    ∧ (s.activeRoundIndex = 0 → handlePrevRound s = s) := by
  refine ⟨?_, ?_, ?_, ?_, ?_⟩
  · unfold handleNextRound
    by_cases h : s.activeRoundIndex = (s.rounds.length : Int) - 1
    · rw [if_pos h]
      dsimp only
      simp only [List.length_append, List.length_cons, List.length_nil]
      omega
    · rw [if_neg h]
      dsimp only
      refine ⟨by omega, by omega, by omega⟩
  · intro h
    unfold handleNextRound
    rw [if_pos h]
    exact ⟨rfl, rfl⟩
  · intro h
    unfold handleNextRound
    rw [if_neg (by omega)]
    exact ⟨rfl, rfl⟩
  · unfold handlePrevRound
    by_cases h : 0 < s.activeRoundIndex
    · rw [if_pos h]
      dsimp only
      refine ⟨by omega, by omega, h3⟩
    · rw [if_neg h]
      exact ⟨h1, h2, h3⟩
  · intro h
    unfold handlePrevRound
    rw [if_neg (by omega)]

/-- C6 witness at a concrete state. -/
theorem c6_round_navigation_witness :
    handlePrevRound exB = exB ∧ (handleNextRound exB).rounds = exB.rounds ++ [[]] := by
  have h := c6_round_navigation exB (by decide) (by decide) (by decide)
  exact ⟨h.2.2.2.2 (by decide), (h.2.1 (by decide)).1⟩

lemma lookup_map_set (r : RoundScores) (pid : String) (v : Int)
    (h : r.any (fun e => e.1 == pid) = true) :
    lookupScore (r.map (fun e => if e.1 == pid then (pid, v) else e)) pid = some v := by
  induction r with
  | nil => simp at h
  | cons e r ih =>
    rw [List.map_cons]
    by_cases hk : (e.1 == pid) = true
    · rw [if_pos hk]
      simp only [lookupScore]
      rw [if_pos (by simp : ((pid, v).1 == pid) = true)]
    · rw [if_neg hk]
      simp only [lookupScore]
      rw [if_neg hk]
      rw [List.any_cons, Bool.or_eq_true] at h
      rcases h with h | h
      · exact absurd h hk
      · exact ih h

lemma lookup_append_self (r : RoundScores) (pid : String) (v : Int)
    (h : r.any (fun e => e.1 == pid) = false) :
    lookupScore (r ++ [(pid, v)]) pid = some v := by
  induction r with
  | nil =>
    simp only [List.nil_append, lookupScore]
    rw [if_pos (by simp : ((pid, v).1 == pid) = true)]
  | cons e r ih =>
    rw [List.cons_append]
    simp only [lookupScore]
    rw [List.any_cons, Bool.or_eq_false_iff] at h
    have hf : (e.1 == pid) = false := h.1
    rw [if_neg (by simp [hf] : ¬ (e.1 == pid) = true)]
    exact ih h.2

lemma lookupScore_setEntry_self (r : RoundScores) (pid : String) (v : Int) :
    lookupScore (setEntry r pid v) pid = some v := by
  unfold setEntry
  by_cases h : r.any (fun e => e.1 == pid) = true
  · rw [if_pos h]
    exact lookup_map_set r pid v h
  · rw [if_neg h]
    exact lookup_append_self r pid v (by rwa [Bool.not_eq_true] at h)

lemma sumEntries_map_set_self (r : RoundScores) (pid : String) :
    sumEntries pid (r.map (fun e => if e.1 == pid then (pid, (0 : Int)) else e)) = 0 := by
  induction r with
  | nil => rfl
  | cons e r ih =>
    rw [List.map_cons]
    by_cases hk : (e.1 == pid) = true
    · rw [if_pos hk]
      simp only [sumEntries]
      rw [ih]
      simp
    · rw [if_neg hk]
      simp only [sumEntries]
      rw [ih]
      have he : ¬ e.1 = pid := by
        rw [Bool.not_eq_true] at hk
        simpa using hk
      rw [if_neg he]
      simp

lemma sumEntries_setEntry_self_zero (r : RoundScores) (pid : String) :
    sumEntries pid (setEntry r pid 0) = 0 := by
  unfold setEntry
  by_cases h : r.any (fun e => e.1 == pid) = true
  · rw [if_pos h]
    exact sumEntries_map_set_self r pid
  · rw [if_neg h, sumEntries_append]
    have h0 : sumEntries pid r = 0 := by
      apply sumEntries_eq_zero_of_not_mem
      intro e he hee
      rw [List.any_eq_true] at h
      exact h ⟨e, he, by simp [hee]⟩
    simp [sumEntries, h0]

lemma sumEntries_map_set_other (r : RoundScores) (pid q : String) (v : Int)
    (hq : q ≠ pid) :
    sumEntries q (r.map (fun e => if e.1 == pid then (pid, v) else e))
      = sumEntries q r := by
  induction r with
  | nil => rfl
  | cons e r ih =>
    rw [List.map_cons]
    by_cases hk : (e.1 == pid) = true
    · rw [if_pos hk]
      simp only [sumEntries]
      rw [ih]
      have h1 : ¬ ((pid, v).1 = q) := by simpa using Ne.symm hq
      have h2 : ¬ (e.1 = q) := by
        have hev : e.1 = pid := by simpa using hk
        rw [hev]
        exact Ne.symm hq
      rw [if_neg h1, if_neg h2]
    · rw [if_neg hk]
      simp only [sumEntries]
      rw [ih]

lemma sumEntries_setEntry_other (r : RoundScores) (pid q : String) (v : Int)
    (hq : q ≠ pid) :
    sumEntries q (setEntry r pid v) = sumEntries q r := by
  unfold setEntry
  by_cases h : r.any (fun e => e.1 == pid) = true
  · rw [if_pos h]
    exact sumEntries_map_set_other r pid q v hq
  · rw [if_neg h, sumEntries_append]
    simp [sumEntries, Ne.symm hq]

lemma sumEntries_filter_self (r : RoundScores) (pid : String) :
    sumEntries pid (r.filter (fun e => e.1 != pid)) = 0 := by
  apply sumEntries_eq_zero_of_not_mem
  intro e he
  have hmem := (List.mem_filter.mp he).2
  rwa [bne_iff_ne] at hmem

lemma sumEntries_filter_other (r : RoundScores) (pid q : String) (hq : q ≠ pid) :
    sumEntries q (r.filter (fun e => e.1 != pid)) = sumEntries q r := by
  induction r with
  | nil => rfl
  | cons e r ih =>
    rw [List.filter_cons]
    by_cases hk : (e.1 != pid) = true
    · rw [if_pos hk]
      simp only [sumEntries]
      rw [ih]
    · rw [if_neg hk]
      simp only [sumEntries]
      rw [ih]
      have he : e.1 = pid := by
        rw [Bool.not_eq_true] at hk
        simpa using hk
      rw [he, if_neg (Ne.symm hq), zero_add]

lemma roundsSum_set (q : String) (l : List RoundScores) :
    ∀ (i : Nat) (a b : RoundScores), sumEntries q a = sumEntries q b →
    roundsSum q (l.set i a) = roundsSum q (l.set i b) := by
  induction l with
  | nil =>
    intro i a b _
    rfl
  | cons r l ih =>
    intro i a b h
    cases i with
    | zero => simp [List.set_cons_zero, roundsSum, h]
    | succ i => simp [List.set_cons_succ, roundsSum, ih i a b h]

lemma getD_set_self (l : List RoundScores) (n : Nat) (a : RoundScores)
    (h : n < l.length) : (l.set n a).getD n [] = a := by
  induction l generalizing n with
  | nil => simp at h
  | cons x l ih =>
    cases n with
    | zero => rfl
    | succ n =>
      rw [List.set_cons_succ, List.getD_cons_succ]
      exact ih n (by simpa using h)

/-- C1 counterexample: on a state whose active round stores 7 for p1, the
handler applied to the empty string leaves the key p1 present (bound to 0):
the entry is not removed as the claim states. -/
theorem c1_counterexample :
    lookupScore ((handleScoreChange exB "p1" "").rounds.getD 0 []) "p1" = some 0
    ∧ ¬ lookupScore ((handleScoreChange exB "p1" "").rounds.getD 0 []) "p1" = none := by
  refine ⟨by decide, by decide⟩

/-- C1 amended: with a valid active index, setScore with the empty string
stores 0 for the player in the active round (the key stays present, bound to
0) rather than removing the entry; since the aggregation treats 0 like a
missing entry, the resulting totals agree at every key with those of the
state in which the entry is removed, so the player contributes 0 to the
totals; players are untouched. -/
theorem c1_empty_input_stores_zero (s : GameState) (pid : String)
    (h1 : 0 ≤ s.activeRoundIndex)
    (h2 : s.activeRoundIndex < (s.rounds.length : Int)) :
    lookupScore ((handleScoreChange s pid "").rounds.getD s.activeRoundIndex.toNat []) pid
      = some 0
    ∧ (∀ q, totalScores (handleScoreChange s pid "") q
        = totalScores (eraseActiveEntry s pid) q)
    ∧ (handleScoreChange s pid "").players = s.players := by
  have hguard : 0 ≤ s.activeRoundIndex ∧ s.activeRoundIndex < (s.rounds.length : Int) :=
    ⟨h1, h2⟩
  have hn : s.activeRoundIndex.toNat < s.rounds.length := by omega
  have hr : (handleScoreChange s pid "").rounds
      = s.rounds.set s.activeRoundIndex.toNat
          (setEntry (s.rounds.getD s.activeRoundIndex.toNat []) pid 0) := by
    unfold handleScoreChange setRoundAt
    simp [hguard]
  have hp : (handleScoreChange s pid "").players = s.players := by
    unfold handleScoreChange setRoundAt
    simp [hguard]
  have he : (eraseActiveEntry s pid).rounds
      = s.rounds.set s.activeRoundIndex.toNat
          ((s.rounds.getD s.activeRoundIndex.toNat []).filter (fun e => e.1 != pid)) := by
    unfold eraseActiveEntry
    rw [if_pos hguard]
  have hep : (eraseActiveEntry s pid).players = s.players := by
    unfold eraseActiveEntry
    rw [if_pos hguard]
  refine ⟨?_, ?_, hp⟩
  · rw [hr, getD_set_self _ _ _ hn]
    exact lookupScore_setEntry_self _ pid 0
  · intro q
    rw [totalScores_eq, totalScores_eq, hp, hep, hr, he]
    have hsum : sumEntries q (setEntry (s.rounds.getD s.activeRoundIndex.toNat []) pid 0)
        = sumEntries q ((s.rounds.getD s.activeRoundIndex.toNat []).filter (fun e => e.1 != pid)) := by
      by_cases hq : q = pid
      · subst hq
        rw [sumEntries_setEntry_self_zero, sumEntries_filter_self]
      · rw [sumEntries_setEntry_other _ _ _ _ hq, sumEntries_filter_other _ _ _ hq]
    rw [roundsSum_set q s.rounds s.activeRoundIndex.toNat _ _ hsum]

/-- C1 amended claim witness at a concrete state. -/
theorem c1_empty_input_witness :
    lookupScore ((handleScoreChange exB "p1" "").rounds.getD exB.activeRoundIndex.toNat []) "p1"
      = some 0 :=
  (c1_empty_input_stores_zero exB "p1" (by decide) (by decide)).1

lemma wcLt_irrefl (wc : WinCondition) (x : Int) : ¬ wcLt wc x x := by
  cases wc <;> simp [wcLt]

lemma wcLt_trans (wc : WinCondition) {x y z : Int}
    (h1 : wcLt wc x y) (h2 : wcLt wc y z) : wcLt wc x z := by
  cases wc <;> simp [wcLt] at h1 h2 ⊢ <;> omega

lemma wcLt_asymm (wc : WinCondition) {x y : Int} (h : wcLt wc x y) :
    ¬ wcLt wc y x := by
  cases wc <;> simp [wcLt] at h ⊢ <;> omega

lemma not_wcLt_bounds (wc : WinCondition) {x y : Int} (h : ¬ wcLt wc x y) :
    (wc = WinCondition.high → y ≤ x) ∧ (wc = WinCondition.low → x ≤ y) := by
  cases wc <;> simp [wcLt] at h ⊢ <;> omega

lemma beatsVal_some_iff (wc : WinCondition) (v b : Int) :
    beatsVal wc v (some b) = true ↔ wcLt wc b v := by
  cases wc <;> simp [beatsVal, wcLt]

lemma find?_congr {α : Type} (f g : α → Bool) :
    ∀ (l : List α), (∀ a ∈ l, f a = g a) → l.find? f = l.find? g := by
  intro l
  induction l with
  | nil =>
    intro _
    rfl
  | cons a l ih =>
    intro h
    have ha := h a (List.mem_cons_self a l)
    cases hg : g a with
    | true =>
      rw [List.find?_cons_of_pos _ (by rw [ha, hg]), List.find?_cons_of_pos _ hg]
    | false =>
      rw [List.find?_cons_of_neg _ (by simp [ha, hg]), List.find?_cons_of_neg _ (by simp [hg])]
      exact ih (fun x hx => h x (List.mem_cons_of_mem a hx))

lemma scanGo_no_improve (wc : WinCondition) (tot : String → Option Int)
    (val : Player → Int) :
    ∀ (ps : List Player) (b : Int) (l : Option String),
    (∀ p ∈ ps, tot p.id = some (val p)) →
    (∀ p ∈ ps, ¬ wcLt wc b (val p)) →
    scanGo wc tot ps (some b) l = (some b, l) := by
  intro ps
  induction ps with
  | nil =>
    intro b l _ _
    rfl
  | cons p ps ih =>
    intro b l htot hno
    have hp : tot p.id = some (val p) := htot p (List.mem_cons_self p ps)
    have hb : beatsVal wc (val p) (some b) = false := by
      rw [← Bool.not_eq_true, beatsVal_some_iff]
      exact hno p (List.mem_cons_self p ps)
    have hstep : scanGo wc tot (p :: ps) (some b) l = scanGo wc tot ps (some b) l := by
      simp [scanGo, hp, hb]
    rw [hstep]
    exact ih b l (fun q hq => htot q (List.mem_cons_of_mem p hq))
      (fun q hq => hno q (List.mem_cons_of_mem p hq))

lemma scanGo_improve (wc : WinCondition) (tot : String → Option Int)
    (val : Player → Int) :
    ∀ (ps : List Player) (b : Int) (l : Option String),
    (∀ p ∈ ps, tot p.id = some (val p)) →
    (∃ p ∈ ps, wcLt wc b (val p)) →
    ∃ M : Int,
      wcLt wc b M
      ∧ (∃ p ∈ ps, val p = M)
      ∧ (∀ p ∈ ps, ¬ wcLt wc M (val p))
      ∧ (scanGo wc tot ps (some b) l).2
          = (ps.find? (fun p => val p == M)).map Player.id := by
  intro ps
  induction ps with
  | nil =>
    intro b l _ hex
    exact absurd hex (by simp)
  | cons p ps ih =>
    intro b l htot hex
    have hp : tot p.id = some (val p) := htot p (List.mem_cons_self p ps)
    have htot' : ∀ q ∈ ps, tot q.id = some (val q) :=
      fun q hq => htot q (List.mem_cons_of_mem p hq)
    by_cases hpb : wcLt wc b (val p)
    · have hb : beatsVal wc (val p) (some b) = true := (beatsVal_some_iff wc _ b).mpr hpb
      have hstep : scanGo wc tot (p :: ps) (some b) l
          = scanGo wc tot ps (some (val p)) (some p.id) := by
        simp [scanGo, hp, hb]
      by_cases himp : ∃ q ∈ ps, wcLt wc (val p) (val q)
      · obtain ⟨M, h1, h2, h3, h4⟩ := ih (val p) (some p.id) htot' himp
        refine ⟨M, wcLt_trans wc hpb h1, ?_, ?_, ?_⟩
        · obtain ⟨q, hq, hv⟩ := h2
          exact ⟨q, List.mem_cons_of_mem p hq, hv⟩
        · intro q hq
          rcases List.mem_cons.mp hq with rfl | hq'
          · exact wcLt_asymm wc h1
          · exact h3 q hq'
        · rw [hstep, h4]
          have hne : (val p == M) = false := by
            simp only [beq_eq_false_iff_ne, ne_eq]
            intro he
            exact wcLt_irrefl wc (val p) (by rw [he] at h1 ⊢; exact h1)
          rw [List.find?_cons_of_neg _ (by simp [hne])]
      · push_neg at himp
        have hdone := scanGo_no_improve wc tot val ps (val p) (some p.id) htot' himp
        refine ⟨val p, hpb, ⟨p, List.mem_cons_self p ps, rfl⟩, ?_, ?_⟩
        · intro q hq
          rcases List.mem_cons.mp hq with rfl | hq'
          · exact wcLt_irrefl wc (val q)
          · exact himp q hq'
        · rw [hstep, hdone]
          rw [List.find?_cons_of_pos _ (by simp)]
          rfl
    · have hb : beatsVal wc (val p) (some b) = false := by
        rw [← Bool.not_eq_true, beatsVal_some_iff]
        exact hpb
      have hstep : scanGo wc tot (p :: ps) (some b) l = scanGo wc tot ps (some b) l := by
        simp [scanGo, hp, hb]
      have hex' : ∃ q ∈ ps, wcLt wc b (val q) := by
        obtain ⟨q, hq, hlt⟩ := hex
        rcases List.mem_cons.mp hq with rfl | hq'
        · exact absurd hlt hpb
        · exact ⟨q, hq', hlt⟩
      obtain ⟨M, h1, h2, h3, h4⟩ := ih b l htot' hex'
      refine ⟨M, h1, ?_, ?_, ?_⟩
      · obtain ⟨q, hq, hv⟩ := h2
        exact ⟨q, List.mem_cons_of_mem p hq, hv⟩
      · intro q hq
        rcases List.mem_cons.mp hq with rfl | hq'
        · intro hc
          exact hpb (wcLt_trans wc h1 hc)
        · exact h3 q hq'
      · rw [hstep, h4]
        have hne : (val p == M) = false := by
          simp only [beq_eq_false_iff_ne, ne_eq]
          intro he
          rw [he] at hpb
          exact hpb h1
        rw [List.find?_cons_of_neg _ (by simp [hne])]

lemma totalScores_mem_val (s : GameState) :
    ∀ p ∈ s.players, totalScores s p.id = some (playerTotal s p) := by
  intro p hp
  rw [totalScores_eq, if_pos ((any_id_eq_mem _ _).mpr (List.mem_map_of_mem Player.id hp))]
  rfl

lemma leaderId_nondegen (s : GameState)
    (hne : s.players ≠ [])
    (hnz : ¬ ∀ p ∈ s.players, totalScores s p.id = some 0) :
    ∃ best : Int,
      (∃ p ∈ s.players, totalScores s p.id = some best)
      ∧ (∀ p ∈ s.players, ∀ v, totalScores s p.id = some v →
          (s.winCondition = WinCondition.high → v ≤ best)
          ∧ (s.winCondition = WinCondition.low → best ≤ v))
      ∧ leaderId s
          = (s.players.find? (fun p => totalScores s p.id == some best)).map Player.id := by
  have htot := totalScores_mem_val s
  have hie : s.players.isEmpty = false := by
    cases hps : s.players with
    | nil => exact absurd hps hne
    | cons a l => rfl
  have hall : (s.players.all (fun p => totalScores s p.id == some 0)) = false := by
    rw [← Bool.not_eq_true, List.all_eq_true]
    intro hc
    apply hnz
    intro p hp
    have hb := hc p hp
    rwa [beq_iff_eq] at hb
  have hl : leaderId s = (scanGo s.winCondition (totalScores s) s.players none none).2 := by
    simp [leaderId, hie, hall]
  obtain ⟨p₀, ps, hps⟩ := List.exists_cons_of_ne_nil hne
  have hv0 : totalScores s p₀.id = some (playerTotal s p₀) :=
    htot p₀ (by rw [hps]; exact List.mem_cons_self p₀ ps)
  have htot' : ∀ q ∈ ps, totalScores s q.id = some (playerTotal s q) :=
    fun q hq => htot q (by rw [hps]; exact List.mem_cons_of_mem p₀ hq)
  have hbeq : ∀ (a b : Int), ((some a : Option Int) == some b) = (a == b) :=
    fun a b => rfl
  have hstep : scanGo s.winCondition (totalScores s) (p₀ :: ps) none none
      = scanGo s.winCondition (totalScores s) ps (some (playerTotal s p₀)) (some p₀.id) := by
    simp [scanGo, hv0, beatsVal]
  by_cases himp : ∃ q ∈ ps, wcLt s.winCondition (playerTotal s p₀) (playerTotal s q)
  · obtain ⟨M, h1, h2, h3, h4⟩ :=
      scanGo_improve s.winCondition (totalScores s) (playerTotal s) ps
        (playerTotal s p₀) (some p₀.id) htot' himp
    refine ⟨M, ?_, ?_, ?_⟩
    · obtain ⟨q, hq, hv⟩ := h2
      refine ⟨q, by rw [hps]; exact List.mem_cons_of_mem p₀ hq, ?_⟩
      rw [htot' q hq, hv]
    · intro p hp v htv
      rw [hps] at hp
      rcases List.mem_cons.mp hp with rfl | hq'
      · have hv : v = playerTotal s p := by
          rw [hv0] at htv
          exact (Option.some.inj htv).symm
        rw [hv]
        exact not_wcLt_bounds s.winCondition (wcLt_asymm s.winCondition h1)
      · have hv : v = playerTotal s p := by
          rw [htot' p hq'] at htv
          exact (Option.some.inj htv).symm
        rw [hv]
        exact not_wcLt_bounds s.winCondition (h3 p hq')
    · rw [hl, hps, hstep, h4]
      have hne0 : (totalScores s p₀.id == some M) = false := by
        rw [hv0, hbeq]
        simp only [beq_eq_false_iff_ne, ne_eq]
        intro he
        rw [he] at h1
        exact wcLt_irrefl s.winCondition M h1
      rw [List.find?_cons_of_neg _ (by simp [hne0])]
      congr 1
      apply find?_congr
      intro q hq
      rw [htot' q hq, hbeq]
  · push_neg at himp
    have hdone := scanGo_no_improve s.winCondition (totalScores s) (playerTotal s) ps
      (playerTotal s p₀) (some p₀.id) htot' himp
    refine ⟨playerTotal s p₀, ?_, ?_, ?_⟩
    · exact ⟨p₀, by rw [hps]; exact List.mem_cons_self p₀ ps, hv0⟩
    · intro p hp v htv
      rw [hps] at hp
      rcases List.mem_cons.mp hp with rfl | hq'
      · have hv : v = playerTotal s p := by
          rw [hv0] at htv
          exact (Option.some.inj htv).symm
        rw [hv]
        exact ⟨fun _ => le_refl _, fun _ => le_refl _⟩
      · have hv : v = playerTotal s p := by
          rw [htot' p hq'] at htv
          exact (Option.some.inj htv).symm
        rw [hv]
        exact not_wcLt_bounds s.winCondition (himp p hq')
    · rw [hl, hps, hstep, hdone]
      rw [List.find?_cons_of_pos _ (by rw [hv0, hbeq]; simp)]
      rfl

/-- C4: leaderId is none exactly when there are no players or every current
player's total is 0; otherwise there is a best total (an upper bound of all
totals under HighWins, a lower bound under LowWins, attained by some player)
and the leader is the first player in stored order whose total equals it, so
ties go to the earliest player. -/
theorem c4_leader (s : GameState) :
    (leaderId s = none ↔ s.players = [] ∨ ∀ p ∈ s.players, totalScores s p.id = some 0)
    ∧ (s.players ≠ [] → ¬ (∀ p ∈ s.players, totalScores s p.id = some 0) →
        ∃ best : Int,
          (∃ p ∈ s.players, totalScores s p.id = some best)
          ∧ (∀ p ∈ s.players, ∀ v, totalScores s p.id = some v →
              (s.winCondition = WinCondition.high → v ≤ best)
              ∧ (s.winCondition = WinCondition.low → best ≤ v))
          ∧ leaderId s
              = (s.players.find? (fun p => totalScores s p.id == some best)).map Player.id) := by
  constructor
  · constructor
    · intro hn
      by_contra hc
      rw [not_or] at hc
      obtain ⟨hne, hnz⟩ := hc
      obtain ⟨best, hatt, _, heq⟩ := leaderId_nondegen s hne hnz
      rw [hn] at heq
      obtain ⟨p, hp, hpt⟩ := hatt
      rcases hfind : s.players.find? (fun p => totalScores s p.id == some best) with _ | q
      · have hs : (s.players.find? (fun p => totalScores s p.id == some best)).isSome := by
          rw [List.find?_isSome]
          exact ⟨p, hp, by rw [hpt]; simp⟩
        rw [hfind] at hs
        simp at hs
      · rw [hfind] at heq
        simp at heq
    · intro h
      rcases h with h | h
      · simp [leaderId, h]
      · have hall : (s.players.all (fun p => totalScores s p.id == some 0)) = true := by
          rw [List.all_eq_true]
          intro p hp
          rw [h p hp]
          simp
        by_cases hie : s.players.isEmpty = true <;> simp [leaderId, hie, hall]
  · exact leaderId_nondegen s

/-- C4 witness at the concrete state exA (A and B tied at 10, C at 5). -/
theorem c4_leader_witness :
    ∃ best : Int,
      (∃ p ∈ exA.players, totalScores exA p.id = some best)
      ∧ (∀ p ∈ exA.players, ∀ v, totalScores exA p.id = some v →
          (exA.winCondition = WinCondition.high → v ≤ best)
          ∧ (exA.winCondition = WinCondition.low → best ≤ v))
      ∧ leaderId exA
          = (exA.players.find? (fun p => totalScores exA p.id == some best)).map Player.id :=
  (c4_leader exA).2 (by decide) (by decide)

lemma scanGo_mem (wc : WinCondition) (tot : String → Option Int) :
    ∀ (ps : List Player) (best : Option Int) (lead : Option String) (pid : String),
    (scanGo wc tot ps best lead).2 = some pid →
    lead = some pid ∨ pid ∈ ps.map Player.id := by
  intro ps
  induction ps with
  | nil =>
    intro best lead pid h
    exact Or.inl h
  | cons p ps ih =>
    intro best lead pid h
    rcases htp : tot p.id with _ | score
    · have hstep : scanGo wc tot (p :: ps) best lead = scanGo wc tot ps best lead := by
        simp [scanGo, htp]
      rw [hstep] at h
      rcases ih best lead pid h with hl | hm
      · exact Or.inl hl
      · right
        rw [List.map_cons]
        exact List.mem_cons_of_mem _ hm
    · by_cases hb : beatsVal wc score best = true
      · have hstep : scanGo wc tot (p :: ps) best lead
            = scanGo wc tot ps (some score) (some p.id) := by
          simp [scanGo, htp, hb]
        rw [hstep] at h
        rcases ih _ _ pid h with hl | hm
        · right
          rw [List.map_cons, List.mem_cons]
          exact Or.inl (Option.some.inj hl).symm
        · right
          rw [List.map_cons]
          exact List.mem_cons_of_mem _ hm
      · have hbf : beatsVal wc score best = false := by rwa [Bool.not_eq_true] at hb
        have hstep : scanGo wc tot (p :: ps) best lead = scanGo wc tot ps best lead := by
          simp [scanGo, htp, hbf]
        rw [hstep] at h
        rcases ih best lead pid h with hl | hm
        · exact Or.inl hl
        · right
          rw [List.map_cons]
          exact List.mem_cons_of_mem _ hm

/-- C10: a non-none leaderId is always the id of a player currently in
players; a removed player's id is never reported even if its score entries
remain in rounds. -/
theorem c10_leader_is_current (s : GameState) (pid : String)
    (h : leaderId s = some pid) : pid ∈ s.players.map Player.id := by
  unfold leaderId at h
  by_cases hie : s.players.isEmpty = true
  · rw [if_pos hie] at h
    exact absurd h (by simp)
  · rw [if_neg hie] at h
    by_cases hall : (s.players.all (fun p => totalScores s p.id == some 0)) = true
    · rw [if_pos hall] at h
      exact absurd h (by simp)
    · rw [if_neg hall] at h
      rcases scanGo_mem s.winCondition (totalScores s) s.players none none pid h with hl | hm
      · exact absurd hl (by simp)
      · exact hm

/-- C10 witness: in exA the reported leader a1 is a current player. -/
theorem c10_leader_is_current_witness : "a1" ∈ exA.players.map Player.id :=
  c10_leader_is_current exA "a1" (by decide)

/-- C2: the activeRoundIndex initializer does fall back to 0 on a missing key,
but a stored non-numeric string yields NaN (modelled as none), not the
documented default 0: parseInt returns NaN without throwing, so the
surrounding catch never fires. -/
theorem c2_activeRoundIndex_nan :
    loadActiveRoundIndex none = some 0
    ∧ loadActiveRoundIndex (some "abc") = none := by
  constructor
  · rfl
  · decide

/-- C3 counterexample: two players added in the same millisecond (the same
Date.now() reading, here 5) receive the same id "5", so ids are not unique
across players as the claim states. -/
theorem c3_counterexample :
    ((handleAddPlayer (handleAddPlayer exEmpty "A" 5) "B" 5).players.map Player.id)
      = ["5", "5"]
    ∧ ¬ ((handleAddPlayer (handleAddPlayer exEmpty "A" 5) "B" 5).players.map Player.id).Nodup := by
  refine ⟨by decide, by decide⟩

/-- C3 amended: handleAddPlayer is a no-op when the trimmed name is empty;
otherwise it appends exactly one player whose name is the trimmed input and
whose id is the decimal string of the Date.now() reading, leaving every other
field unchanged; the new id is distinct from all existing ids exactly when no
existing player was created from the same clock reading (so id uniqueness
holds when the millisecond clock has advanced between adds, but not for two
adds in the same millisecond). -/
theorem c3_addPlayer (s : GameState) (name : String) (now : Nat) :
    (jsTrim name = "" → handleAddPlayer s name now = s)
    ∧ (jsTrim name ≠ "" →
        (handleAddPlayer s name now).players
            = s.players ++ [{ id := toString now, name := jsTrim name }]
        ∧ (handleAddPlayer s name now).rounds = s.rounds
        ∧ (handleAddPlayer s name now).activeRoundIndex = s.activeRoundIndex
        ∧ (handleAddPlayer s name now).winCondition = s.winCondition
        ∧ (handleAddPlayer s name now).sortBy = s.sortBy)
    ∧ ((∀ p ∈ s.players, p.id ≠ toString now) → (s.players.map Player.id).Nodup →
        jsTrim name ≠ "" →
        ((handleAddPlayer s name now).players.map Player.id).Nodup) := by
  refine ⟨?_, ?_, ?_⟩
  · intro h
    unfold handleAddPlayer
    rw [if_pos h]
  · intro h
    unfold handleAddPlayer
    rw [if_neg h]
    exact ⟨rfl, rfl, rfl, rfl, rfl⟩
  · intro hfresh hnodup h
    unfold handleAddPlayer
    rw [if_neg h]
    dsimp only
    rw [List.map_append]
    simp only [List.map_cons, List.map_nil]
    rw [List.nodup_append]
    refine ⟨hnodup, List.nodup_singleton _, ?_⟩
    intro a ha hb
    rw [List.mem_singleton] at hb
    rw [List.mem_map] at ha
    obtain ⟨p, hp, hid⟩ := ha
    exact hfresh p hp (by rw [hid, hb])

/-- C3 amended claim witness at concrete inputs. -/
theorem c3_addPlayer_witness :
    (handleAddPlayer exEmpty " Ann " 7).players = [{ id := "7", name := "Ann" }]
    ∧ handleAddPlayer exEmpty "   " 7 = exEmpty := by
  refine ⟨?_, (c3_addPlayer exEmpty "   " 7).1 (by decide)⟩
  have h := ((c3_addPlayer exEmpty " Ann " 7).2.1 (by decide)).1
  rw [h]
  decide

lemma lexLe_total : ∀ (as bs : List Char), lexLe as bs = true ∨ lexLe bs as = true := by
  intro as
  induction as with
  | nil =>
    intro bs
    left
    rfl
  | cons a as ih =>
    intro bs
    cases bs with
    | nil =>
      right
      rfl
    | cons b bs =>
      simp only [lexLe]
      rcases Nat.lt_trichotomy a.toNat b.toNat with h | h | h
      · left
        rw [if_pos h]
      · rw [if_neg (by omega), if_neg (by omega), if_neg (by omega), if_neg (by omega)]
        exact ih bs
      · right
        rw [if_pos h]

lemma lexLe_trans : ∀ (as bs cs : List Char),
    lexLe as bs = true → lexLe bs cs = true → lexLe as cs = true := by
  intro as
  induction as with
  | nil =>
    intro bs cs _ _
    rfl
  | cons a as ih =>
    intro bs cs h1 h2
    cases bs with
    | nil => simp [lexLe] at h1
    | cons b bs =>
      cases cs with
      | nil => simp [lexLe] at h2
      | cons c cs =>
        simp only [lexLe] at h1 h2 ⊢
        by_cases hab : a.toNat < b.toNat
        · by_cases hbc : b.toNat < c.toNat
          · rw [if_pos (by omega)]
          · rw [if_neg hbc] at h2
            by_cases hcb : c.toNat < b.toNat
            · rw [if_pos hcb] at h2
              exact absurd h2 (by simp)
            · rw [if_pos (by omega)]
        · by_cases hba : b.toNat < a.toNat
          · rw [if_neg hab, if_pos hba] at h1
            exact absurd h1 (by simp)
          · rw [if_neg hab, if_neg hba] at h1
            by_cases hbc : b.toNat < c.toNat
            · rw [if_pos (by omega)]
            · by_cases hcb : c.toNat < b.toNat
              · rw [if_neg hbc, if_pos hcb] at h2
                exact absurd h2 (by simp)
              · rw [if_neg hbc, if_neg hcb] at h2
                rw [if_neg (by omega), if_neg (by omega)]
                exact ih bs cs h1 h2

/-- C8: sortedPlayers is a permutation of players (the original list is not
mutated, as the state is unchanged and a fresh list is produced); under
default the order is exactly players; under scoreDesc (resp. scoreAsc) totals
are non-increasing (resp. non-decreasing) along the result, ties in
unspecified relative order; under nameAsc names are in (locale-modelled)
lexicographic order. -/
theorem c8_sorted_players (s : GameState) :
    (sortedPlayers s).Perm s.players
    ∧ (s.sortBy = SortOption.default → sortedPlayers s = s.players)
    ∧ (s.sortBy = SortOption.scoreDesc →
        (sortedPlayers s).Sorted (fun a b => totOf s b.id ≤ totOf s a.id))
    ∧ (s.sortBy = SortOption.scoreAsc →
        (sortedPlayers s).Sorted (fun a b => totOf s a.id ≤ totOf s b.id))
    ∧ (s.sortBy = SortOption.nameAsc →
        (sortedPlayers s).Sorted (fun a b => lexLe a.name.data b.name.data = true)) := by
  refine ⟨?_, ?_, ?_, ?_, ?_⟩
  · unfold sortedPlayers
    cases s.sortBy
    · exact List.Perm.refl _
    · exact List.perm_insertionSort _ _
    · exact List.perm_insertionSort _ _
    · exact List.perm_insertionSort _ _
  · intro h
    unfold sortedPlayers
    rw [h]
  · intro h
    unfold sortedPlayers
    rw [h]
    haveI ht : IsTotal Player (fun a b => totOf s b.id ≤ totOf s a.id) :=
      ⟨fun a b => le_total _ _⟩
    haveI htr : IsTrans Player (fun a b => totOf s b.id ≤ totOf s a.id) :=
      ⟨fun a b c h1 h2 => le_trans h2 h1⟩
    exact List.sorted_insertionSort _ _
  · intro h
    unfold sortedPlayers
    rw [h]
    haveI ht : IsTotal Player (fun a b => totOf s a.id ≤ totOf s b.id) :=
      ⟨fun a b => le_total _ _⟩
    haveI htr : IsTrans Player (fun a b => totOf s a.id ≤ totOf s b.id) :=
      ⟨fun a b c h1 h2 => le_trans h1 h2⟩
    exact List.sorted_insertionSort _ _
  · intro h
    unfold sortedPlayers
    rw [h]
    haveI ht : IsTotal Player (fun a b => lexLe a.name.data b.name.data = true) :=
      ⟨fun a b => lexLe_total _ _⟩
    haveI htr : IsTrans Player (fun a b => lexLe a.name.data b.name.data = true) :=
      ⟨fun a b c h1 h2 => lexLe_trans _ _ _ h1 h2⟩
    exact List.sorted_insertionSort _ _

/-- C8 witness: Alice(5), Bob(9), Carl(9) sort as Bob, Carl, Alice under
scoreDesc (Bob and Carl before Alice) and as Alice, Bob, Carl under
nameAsc. -/
theorem c8_sorted_players_witness :
    (sortedPlayers exSortDesc).Sorted
        (fun a b => totOf exSortDesc b.id ≤ totOf exSortDesc a.id)
    ∧ sortedPlayers exSortDesc = [⟨"b", "Bob"⟩, ⟨"c", "Carl"⟩, ⟨"a", "Alice"⟩]
    ∧ (sortedPlayers exSortName).Sorted
        (fun a b => lexLe a.name.data b.name.data = true)
    ∧ sortedPlayers exSortName = [⟨"a", "Alice"⟩, ⟨"b", "Bob"⟩, ⟨"c", "Carl"⟩] :=
  ⟨(c8_sorted_players exSortDesc).2.2.1 rfl, by decide,
   (c8_sorted_players exSortName).2.2.2.2 rfl, by decide⟩

end Scorecard
